import Mathlib

-- Verification of the d3 China-map tour demo (src/src/app/page.tsx).
-- The source is TypeScript running on IEEE-754 doubles; numbers are modelled
-- exactly by rationals extended with signed infinities and NaN (the values
-- JavaScript arithmetic produces on division by zero etc.), ignoring rounding.

set_option maxHeartbeats 1000000

namespace D3Demo

/-- A JavaScript number: a finite value (modelled exactly as a rational),
positive or negative infinity, or NaN. -/
inductive JSNum where
  | num (q : ℚ)
  | posInf
  | negInf
  | nan
deriving DecidableEq

namespace JSNum

/-- JavaScript unary negation. -/
def neg : JSNum → JSNum
  | nan => nan
  | posInf => negInf
  | negInf => posInf
  | num a => num (-a)

/-- JavaScript addition (IEEE-754 rules on infinities and NaN; exact on finite values). -/
def add : JSNum → JSNum → JSNum
  | nan, _ => nan
  | _, nan => nan
  | posInf, negInf => nan
  | negInf, posInf => nan
  | posInf, _ => posInf
  | _, posInf => posInf
  | negInf, _ => negInf
  | _, negInf => negInf
  | num a, num b => num (a + b)

/-- JavaScript subtraction. -/
def sub (a b : JSNum) : JSNum := add a (neg b)

/-- JavaScript multiplication (infinity times zero is NaN). -/
def mul : JSNum → JSNum → JSNum
  | nan, _ => nan
  | _, nan => nan
  | posInf, posInf => posInf
  | posInf, negInf => negInf
  | negInf, posInf => negInf
  | negInf, negInf => posInf
  | posInf, num b => if 0 < b then posInf else if b < 0 then negInf else nan
  | negInf, num b => if 0 < b then negInf else if b < 0 then posInf else nan
  | num a, posInf => if 0 < a then posInf else if a < 0 then negInf else nan
  | num a, negInf => if 0 < a then negInf else if a < 0 then posInf else nan
  | num a, num b => num (a * b)

/-- JavaScript division: a nonzero finite value divided by zero gives a signed
infinity, 0/0 gives NaN. ℚ has a single zero, which plays IEEE +0. -/
def div : JSNum → JSNum → JSNum
  | nan, _ => nan
  | _, nan => nan
  | posInf, posInf => nan
  | posInf, negInf => nan
  | negInf, posInf => nan
  | negInf, negInf => nan
  | posInf, num b => if 0 ≤ b then posInf else negInf
  | negInf, num b => if 0 ≤ b then negInf else posInf
  | num _, posInf => num 0
  | num _, negInf => num 0
  | num a, num b =>
      if b = 0 then (if 0 < a then posInf else if a < 0 then negInf else nan)
      else num (a / b)

/-- JavaScript `Math.min`: NaN if either argument is NaN, else the smaller value. -/
def jmin : JSNum → JSNum → JSNum
  | nan, _ => nan
  | _, nan => nan
  | negInf, _ => negInf
  | _, negInf => negInf
  | posInf, b => b
  | a, posInf => a
  | num a, num b => num (min a b)

/-- JavaScript strict less-than: false whenever either side is NaN. -/
def jlt : JSNum → JSNum → Bool
  | nan, _ => false
  | _, nan => false
  | num a, num b => decide (a < b)
  | num _, posInf => true
  | num _, negInf => false
  | posInf, _ => false
  | negInf, negInf => false
  | negInf, _ => true

-- Evaluation lemmas for the operations on constructor-shaped arguments.

lemma div_num_num {a b : ℚ} (hb : b ≠ 0) : div (num a) (num b) = num (a / b) := by
  simp [div, hb]

lemma div_num_zero {a : ℚ} (ha : 0 < a) : div (num a) (num 0) = posInf := by
  simp [div, ha]

lemma jmin_num_num (a b : ℚ) : jmin (num a) (num b) = num (min a b) := rfl

lemma jmin_posInf_num (b : ℚ) : jmin posInf (num b) = num b := rfl

lemma jmin_num_posInf (a : ℚ) : jmin (num a) posInf = num a := rfl

lemma jmin_posInf_posInf : jmin posInf posInf = posInf := rfl

lemma mul_num_num (a b : ℚ) : mul (num a) (num b) = num (a * b) := rfl

lemma mul_posInf_num {b : ℚ} (hb : 0 < b) : mul posInf (num b) = posInf := by
  simp [mul, hb]

lemma mul_num_posInf_zero : mul (num 0) posInf = nan := by
  simp [mul]

lemma sub_num_num (a b : ℚ) : sub (num a) (num b) = num (a - b) := by
  simp [sub, add, neg, sub_eq_add_neg]

lemma sub_num_nan (a : ℚ) : sub (num a) nan = nan := rfl

lemma jlt_posInf_posInf : jlt posInf posInf = false := rfl

end JSNum

/-- Viewport width, src line 12. -/
def width : ℚ := 960

/-- Viewport height, src line 13. -/
def height : ℚ := 600

/-- A d3 zoom transform `d3.zoomIdentity.translate(tx, ty).scale(k)`
as produced at src line 100: a uniform scale and a translation. -/
structure CameraTransform where
  k : JSNum
  tx : JSNum
  ty : JSNum
deriving DecidableEq

/-- Embeds `transformFor` (src lines 84-101). The source closes over the module
constants `width` and `height`; they are generalized here to parameters `W` `H`
so viewport-quantified properties can be stated — the source's instance is
`transformFor width height`. The bounding box `[[x0,y0],[x1,y1]]` returned by
`path.bounds` is finite, so the corners are plain rationals; the arithmetic is
JavaScript arithmetic (there is no guard on `dx`/`dy`, so `W / dx` is a genuine
JS division that yields Infinity when `dx = 0`). -/
def transformFor (W H x0 y0 x1 y1 padding : ℚ) : CameraTransform :=
  let dx := x1 - x0
  let dy := y1 - y0
  let k := JSNum.mul (JSNum.jmin (JSNum.div (.num W) (.num dx)) (JSNum.div (.num H) (.num dy)))
      (.num padding)
  let tx := JSNum.sub (.num (W / 2)) (JSNum.mul (.num ((x0 + x1) / 2)) k)
  let ty := JSNum.sub (.num (H / 2)) (JSNum.mul (.num ((y0 + y1) / 2)) k)
  ⟨k, tx, ty⟩

-- Helper lemmas evaluating the scale factor of `transformFor` in the four
-- sign regimes of the bounding-box dimensions.

lemma transformFor_k_pos_pos (W H x0 y0 x1 y1 p : ℚ) (hdx : 0 < x1 - x0) (hdy : 0 < y1 - y0) :
    transformFor W H x0 y0 x1 y1 p =
      ⟨JSNum.num (min (W / (x1 - x0)) (H / (y1 - y0)) * p),
       JSNum.num (W / 2 - (x0 + x1) / 2 * (min (W / (x1 - x0)) (H / (y1 - y0)) * p)),
       JSNum.num (H / 2 - (y0 + y1) / 2 * (min (W / (x1 - x0)) (H / (y1 - y0)) * p))⟩ := by
  simp only [transformFor, JSNum.div_num_num hdx.ne', JSNum.div_num_num hdy.ne',
    JSNum.jmin_num_num, JSNum.mul_num_num, JSNum.sub_num_num]

lemma transformFor_k_zero_pos (W H x0 y0 x1 y1 p : ℚ) (hW : 0 < W) (hx : x1 = x0)
    (hdy : 0 < y1 - y0) :
    (transformFor W H x0 y0 x1 y1 p).k = JSNum.num (H / (y1 - y0) * p) := by
  subst hx
  simp only [transformFor, sub_self, JSNum.div_num_zero hW, JSNum.div_num_num hdy.ne',
    JSNum.jmin_posInf_num, JSNum.mul_num_num]

lemma transformFor_k_pos_zero (W H x0 y0 x1 y1 p : ℚ) (hH : 0 < H) (hdx : 0 < x1 - x0)
    (hy : y1 = y0) :
    (transformFor W H x0 y0 x1 y1 p).k = JSNum.num (W / (x1 - x0) * p) := by
  subst hy
  simp only [transformFor, sub_self, JSNum.div_num_zero hH, JSNum.div_num_num hdx.ne',
    JSNum.jmin_num_posInf, JSNum.mul_num_num]

lemma transformFor_k_zero_zero (W H x0 y0 x1 y1 p : ℚ) (hW : 0 < W) (hH : 0 < H) (hp : 0 < p)
    (hx : x1 = x0) (hy : y1 = y0) :
    (transformFor W H x0 y0 x1 y1 p).k = JSNum.posInf := by
  subst hx; subst hy
  simp only [transformFor, sub_self, JSNum.div_num_zero hW, JSNum.div_num_zero hH,
    JSNum.jmin_posInf_posInf, JSNum.mul_posInf_num hp]

/-- C1: for a bounding box `[[x0,y0],[x1,y1]]` with `dx = x1-x0` and `dy = y1-y0`
both greater than a nonnegative epsilon, viewport `(W,H)` and padding `p`,
`transformFor` returns exactly `scale = min(W/dx, H/dy) * p`,
`translateX = W/2 - ((x0+x1)/2) * scale` and `translateY = H/2 - ((y0+y1)/2) * scale`. -/
theorem C1_transform_formula (W H p x0 y0 x1 y1 eps : ℚ) (heps : 0 ≤ eps)
    (hdx : eps < x1 - x0) (hdy : eps < y1 - y0) :
    transformFor W H x0 y0 x1 y1 p =
      ⟨JSNum.num (min (W / (x1 - x0)) (H / (y1 - y0)) * p),
       JSNum.num (W / 2 - (x0 + x1) / 2 * (min (W / (x1 - x0)) (H / (y1 - y0)) * p)),
       JSNum.num (H / 2 - (y0 + y1) / 2 * (min (W / (x1 - x0)) (H / (y1 - y0)) * p))⟩ :=
  transformFor_k_pos_pos W H x0 y0 x1 y1 p (lt_of_le_of_lt heps hdx) (lt_of_le_of_lt heps hdy)

/-- Witness for C1 at the box `[[0,0],[10,10]]`, viewport 960×600, padding 0.9. -/
theorem C1_transform_formula_witness :
    transformFor 960 600 0 0 10 10 (9/10) =
      ⟨JSNum.num (min ((960:ℚ) / (10 - 0)) ((600:ℚ) / (10 - 0)) * (9/10)),
       JSNum.num ((960:ℚ) / 2 - (0 + 10) / 2 * (min ((960:ℚ) / (10 - 0)) ((600:ℚ) / (10 - 0)) * (9/10))),
       JSNum.num ((600:ℚ) / 2 - (0 + 10) / 2 * (min ((960:ℚ) / (10 - 0)) ((600:ℚ) / (10 - 0)) * (9/10)))⟩ :=
  C1_transform_formula 960 600 (9/10) 0 0 10 10 0 le_rfl (by norm_num) (by norm_num)

/-- C2 counterexample: the code has no degenerate-dimension guard. For the
point-like box `[[0,0],[0,0]]` the scale is Infinity (division by zero), not
the finite positive value `min(960/1, 600/1) * 0.9` that treating the
dimensions as 1 would give, and the translates are NaN: the transform is not
finite and its scale is not a positive number. -/
theorem C2_no_guard_cex :
    transformFor 960 600 0 0 0 0 (9/10) = ⟨JSNum.posInf, JSNum.nan, JSNum.nan⟩ ∧
    (transformFor 960 600 0 0 0 0 (9/10)).k ≠
      JSNum.num (min ((960:ℚ) / 1) ((600:ℚ) / 1) * (9/10)) := by
  have h : transformFor 960 600 0 0 0 0 (9/10) = ⟨JSNum.posInf, JSNum.nan, JSNum.nan⟩ := by
    simp only [transformFor, sub_self]
    rw [JSNum.div_num_zero (by norm_num : (0:ℚ) < 960),
      JSNum.div_num_zero (by norm_num : (0:ℚ) < 600), JSNum.jmin_posInf_posInf,
      JSNum.mul_posInf_num (by norm_num : (0:ℚ) < 9/10)]
    norm_num [JSNum.mul_num_posInf_zero, JSNum.sub_num_nan]
  exact ⟨h, by rw [h]; simp⟩

/-- C2 amended: `transformFor` has no epsilon clamp. With a positive viewport and
padding: if exactly one bounding-box dimension is zero, `Math.min` discards the
infinite quotient and the scale is still finite and positive; if both dimensions
are zero the scale is Infinity. -/
theorem C2_degenerate_scale (W H p x0 y0 x1 y1 : ℚ) (hW : 0 < W) (hH : 0 < H) (hp : 0 < p) :
    (x1 = x0 → y0 < y1 →
      (transformFor W H x0 y0 x1 y1 p).k = JSNum.num (H / (y1 - y0) * p) ∧
        0 < H / (y1 - y0) * p) ∧
    (y1 = y0 → x0 < x1 →
      (transformFor W H x0 y0 x1 y1 p).k = JSNum.num (W / (x1 - x0) * p) ∧
        0 < W / (x1 - x0) * p) ∧
    (x1 = x0 → y1 = y0 → (transformFor W H x0 y0 x1 y1 p).k = JSNum.posInf) := by
  refine ⟨fun hx hy => ?_, fun hy hx => ?_, fun hx hy => ?_⟩
  · exact ⟨transformFor_k_zero_pos W H x0 y0 x1 y1 p hW hx (by linarith),
      mul_pos (div_pos hH (by linarith)) hp⟩
  · exact ⟨transformFor_k_pos_zero W H x0 y0 x1 y1 p hH (by linarith) hy,
      mul_pos (div_pos hW (by linarith)) hp⟩
  · exact transformFor_k_zero_zero W H x0 y0 x1 y1 p hW hH hp hx hy

/-- Witness for C2 amended: a zero-width, positive-height box and a fully
degenerate box at the source viewport and padding. -/
theorem C2_degenerate_scale_witness :
    ((0:ℚ) = 0 → (0:ℚ) < 7 →
      (transformFor 960 600 0 0 0 7 (9/10)).k = JSNum.num ((600:ℚ) / (7 - 0) * (9/10)) ∧
        0 < (600:ℚ) / (7 - 0) * (9/10)) ∧
    ((7:ℚ) = 0 → (0:ℚ) < 0 →
      (transformFor 960 600 0 0 0 7 (9/10)).k = JSNum.num ((960:ℚ) / (0 - 0) * (9/10)) ∧
        0 < (960:ℚ) / (0 - 0) * (9/10)) ∧
    ((0:ℚ) = 0 → (7:ℚ) = 0 → (transformFor 960 600 0 0 0 7 (9/10)).k = JSNum.posInf) :=
  C2_degenerate_scale 960 600 (9/10) 0 0 0 7 (by norm_num) (by norm_num) (by norm_num)

/-- C9 counterexample: for the point-like bounding box `[[5,5],[5,5]]` the scale
is Infinity at padding 0.9 and at padding 0.5 alike, so shrinking the padding
does not strictly decrease the scale. -/
theorem C9_point_box_cex :
    JSNum.jlt (transformFor 960 600 5 5 5 5 (1/2)).k (transformFor 960 600 5 5 5 5 (9/10)).k
      = false ∧
    (transformFor 960 600 5 5 5 5 (1/2)).k = (transformFor 960 600 5 5 5 5 (9/10)).k := by
  have h1 : (transformFor 960 600 5 5 5 5 (1/2)).k = JSNum.posInf :=
    transformFor_k_zero_zero 960 600 5 5 5 5 (1/2) (by norm_num) (by norm_num) (by norm_num)
      rfl rfl
  have h2 : (transformFor 960 600 5 5 5 5 (9/10)).k = JSNum.posInf :=
    transformFor_k_zero_zero 960 600 5 5 5 5 (9/10) (by norm_num) (by norm_num) (by norm_num)
      rfl rfl
  rw [h1, h2]
  exact ⟨JSNum.jlt_posInf_posInf, rfl⟩

/-- C9 amended: for a positive viewport and a bounding box with `x0 ≤ x1`,
`y0 ≤ y1` that is not a single point (positive width or positive height),
shrinking the padding from 0.9 to 0.5 strictly decreases the computed scale. -/
theorem C9_padding_monotone (W H x0 y0 x1 y1 : ℚ) (hW : 0 < W) (hH : 0 < H)
    (hx : x0 ≤ x1) (hy : y0 ≤ y1) (hnd : x0 < x1 ∨ y0 < y1) :
    JSNum.jlt (transformFor W H x0 y0 x1 y1 (1/2)).k
      (transformFor W H x0 y0 x1 y1 (9/10)).k = true := by
  have step : ∀ q : ℚ, 0 < q →
      (transformFor W H x0 y0 x1 y1 (1/2)).k = JSNum.num (q * (1/2)) →
      (transformFor W H x0 y0 x1 y1 (9/10)).k = JSNum.num (q * (9/10)) →
      JSNum.jlt (transformFor W H x0 y0 x1 y1 (1/2)).k
        (transformFor W H x0 y0 x1 y1 (9/10)).k = true := by
    intro q hq h1 h2
    rw [h1, h2]
    simp only [JSNum.jlt, decide_eq_true_eq]
    exact mul_lt_mul_of_pos_left (by norm_num) hq
  rcases lt_or_eq_of_le hx with hxlt | hxeq
  · rcases lt_or_eq_of_le hy with hylt | hyeq
    · refine step (min (W / (x1 - x0)) (H / (y1 - y0)))
        (lt_min (div_pos hW (by linarith)) (div_pos hH (by linarith))) ?_ ?_ <;>
        rw [transformFor_k_pos_pos W H x0 y0 x1 y1 _ (by linarith) (by linarith)]
    · exact step (W / (x1 - x0)) (div_pos hW (by linarith))
        (transformFor_k_pos_zero W H x0 y0 x1 y1 _ hH (by linarith) hyeq.symm)
        (transformFor_k_pos_zero W H x0 y0 x1 y1 _ hH (by linarith) hyeq.symm)
  · rcases lt_or_eq_of_le hy with hylt | hyeq
    · exact step (H / (y1 - y0)) (div_pos hH (by linarith))
        (transformFor_k_zero_pos W H x0 y0 x1 y1 _ hW hxeq.symm (by linarith))
        (transformFor_k_zero_pos W H x0 y0 x1 y1 _ hW hxeq.symm (by linarith))
    · cases hnd with
      | inl h => exact absurd hxeq (ne_of_lt h)
      | inr h => exact absurd hyeq (ne_of_lt h)

/-- Witness for C9 amended at the box `[[0,0],[10,10]]`, viewport 960×600. -/
theorem C9_padding_monotone_witness :
    JSNum.jlt (transformFor 960 600 0 0 10 10 (1/2)).k
      (transformFor 960 600 0 0 10 10 (9/10)).k = true :=
  C9_padding_monotone 960 600 0 0 10 10 (by norm_num) (by norm_num) (by norm_num)
    (by norm_num) (Or.inl (by norm_num))

/-- The value of a GeoJSON property as far as the index cares: the source tests
`typeof n === "string"`, so the only distinction that matters is string values
(of any content, the empty string included) versus every non-string value. -/
inductive PropValue where
  | str (s : String)
  | nonString
deriving DecidableEq

/-- A province feature as the core uses it: the optional `name` property
(src line 16, `{ name?: string } & Record<string, unknown>`) and the feature's
screen-space bounding box as `path.bounds` would report it (the geometry itself
is opaque to the indexing and camera logic, which only ever consult the name
and the projected bounds). -/
structure ProvinceFeature where
  name : Option PropValue
  bounds : (ℚ × ℚ) × (ℚ × ℚ)
deriving DecidableEq

/-- `Map.prototype.set`: replace the value of an existing key in place, else
append the new entry. -/
def setEntry : List (String × ProvinceFeature) → String → ProvinceFeature →
    List (String × ProvinceFeature)
  | [], k, v => [(k, v)]
  | (k1, v1) :: rest, k, v =>
      if k1 = k then (k, v) :: rest else (k1, v1) :: setEntry rest k v

/-- `Map.prototype.get`: the value stored at a key, if any. -/
def getEntry : List (String × ProvinceFeature) → String → Option ProvinceFeature
  | [], _ => none
  | (k1, v1) :: rest, k => if k1 = k then some v1 else getEntry rest k

/-- One iteration of the index-building loop (src lines 72-75):
`const n = f.properties?.name; if (typeof n === "string") byName.set(n, f);`. -/
def insertFeature (m : List (String × ProvinceFeature)) (f : ProvinceFeature) :
    List (String × ProvinceFeature) :=
  match f.name with
  | some (PropValue.str n) => setEntry m n f
  | _ => m

/-- Embeds `byName` (src lines 71-75): the name-to-feature map built by folding
`insertFeature` over the feature list in input order, starting from an empty map. -/
def byName (features : List ProvinceFeature) : List (String × ProvinceFeature) :=
  features.foldl insertFeature []

/-- The last feature in the list whose `name` property is the string `n`
(later entries win, mirroring `Map.set` overwrite semantics). -/
def lastWithName : List ProvinceFeature → String → Option ProvinceFeature
  | [], _ => none
  | f :: rest, n =>
      match lastWithName rest n with
      | some g => some g
      | none => if f.name = some (PropValue.str n) then some f else none

lemma getEntry_setEntry (m : List (String × ProvinceFeature)) (k : String)
    (v : ProvinceFeature) (n : String) :
    getEntry (setEntry m k v) n = if k = n then some v else getEntry m n := by
  induction m with
  | nil =>
    simp only [setEntry, getEntry]
  | cons e rest ih =>
    obtain ⟨k1, v1⟩ := e
    by_cases h1 : k1 = k
    · subst h1
      by_cases h2 : k1 = n <;> simp [setEntry, getEntry, h2]
    · by_cases h2 : k1 = n
      · subst h2
        have : ¬ k = k1 := fun h => h1 h.symm
        simp [setEntry, getEntry, h1, this]
      · simp [setEntry, getEntry, h1, h2, ih]

lemma getEntry_insertFeature (m : List (String × ProvinceFeature)) (f : ProvinceFeature)
    (n : String) :
    getEntry (insertFeature m f) n =
      if f.name = some (PropValue.str n) then some f else getEntry m n := by
  match hf : f.name with
  | none => simp [insertFeature, hf]
  | some PropValue.nonString => simp [insertFeature, hf]
  | some (PropValue.str s) =>
    by_cases h : s = n
    · subst h
      simp [insertFeature, hf, getEntry_setEntry]
    · have : ¬ f.name = some (PropValue.str n) := by simp [hf, h]
      simp [insertFeature, hf, getEntry_setEntry, h, this]

lemma getEntry_foldl (features : List ProvinceFeature) :
    ∀ (m : List (String × ProvinceFeature)) (n : String),
      getEntry (features.foldl insertFeature m) n =
        (lastWithName features n).elim (getEntry m n) some := by
  induction features with
  | nil => intro m n; simp [lastWithName]
  | cons f rest ih =>
    intro m n
    rw [List.foldl_cons, ih]
    match h : lastWithName rest n with
    | some g => simp [lastWithName, h]
    | none =>
      by_cases hf : f.name = some (PropValue.str n) <;>
        simp [lastWithName, h, getEntry_insertFeature, hf]

/-- The index lookup is exactly "the last feature with that string name". -/
lemma byName_getEntry (features : List ProvinceFeature) (n : String) :
    getEntry (byName features) n = lastWithName features n := by
  rw [byName, getEntry_foldl]
  cases lastWithName features n <;> simp [getEntry]

lemma lastWithName_name (features : List ProvinceFeature) (n : String) (f : ProvinceFeature) :
    lastWithName features n = some f → f.name = some (PropValue.str n) := by
  induction features with
  | nil => intro h; exact absurd h (by simp [lastWithName])
  | cons g rest ih =>
    intro h
    rw [lastWithName] at h
    match hr : lastWithName rest n with
    | some g1 => rw [hr] at h; exact ih (hr.trans h)
    | none =>
      rw [hr] at h
      by_cases hg : g.name = some (PropValue.str n)
      · rw [if_pos hg] at h
        cases h
        exact hg
      · rw [if_neg hg] at h
        exact absurd h (by simp)

lemma lastWithName_append (xs ys : List ProvinceFeature) (n : String) :
    lastWithName (xs ++ ys) n = (lastWithName ys n).elim (lastWithName xs n) some := by
  induction xs with
  | nil => cases h : lastWithName ys n <;> simp [lastWithName, h]
  | cons x xs ih =>
    rw [List.cons_append, lastWithName, ih, lastWithName]
    cases lastWithName ys n <;> cases lastWithName xs n <;> simp

lemma lastWithName_none (features : List ProvinceFeature) (n : String)
    (h : ∀ f ∈ features, f.name ≠ some (PropValue.str n)) :
    lastWithName features n = none := by
  induction features with
  | nil => rfl
  | cons f rest ih =>
    rw [lastWithName, ih (fun g hg => h g (List.mem_cons_of_mem f hg)),
      if_neg (h f (List.mem_cons_self f rest))]

/-- C4 counterexample: a region whose `name` is the empty string IS indexed —
looking up the empty string returns it — because the source only checks
`typeof n === "string"`, never that the string is non-empty. -/
theorem C4_empty_name_indexed_cex :
    getEntry (byName [⟨some (PropValue.str ""), ((0, 0), (1, 1))⟩]) "" =
      some ⟨some (PropValue.str ""), ((0, 0), (1, 1))⟩ := rfl

/-- C4 amended: the index contains an entry for a region exactly when its name
property is a string — the empty string included; missing or non-string names
are never indexed. Every successful lookup returns a feature whose name is the
string looked up (so features without a string name are never values of the map). -/
theorem C4_index_name_invariant (features : List ProvinceFeature) (n : String)
    (f : ProvinceFeature) (h : getEntry (byName features) n = some f) :
    f.name = some (PropValue.str n) := by
  rw [byName_getEntry] at h
  exact lastWithName_name features n f h

/-- Witness for C4 amended: a one-region collection with name "A". -/
theorem C4_index_name_invariant_witness :
    (⟨some (PropValue.str "A"), ((0, 0), (1, 1))⟩ : ProvinceFeature).name =
      some (PropValue.str "A") :=
  C4_index_name_invariant [⟨some (PropValue.str "A"), ((0, 0), (1, 1))⟩] "A"
    ⟨some (PropValue.str "A"), ((0, 0), (1, 1))⟩ rfl

/-- C5: if regions A and B carry the same string name, with B appearing later in
input order and no region after B carrying that name, the index lookup returns
exactly B — never A and never a merge. -/
theorem C5_last_duplicate_wins (pre mid post : List ProvinceFeature) (A B : ProvinceFeature)
    (n : String) (_hA : A.name = some (PropValue.str n)) (hB : B.name = some (PropValue.str n))
    (hpost : ∀ C ∈ post, C.name ≠ some (PropValue.str n)) :
    getEntry (byName (pre ++ A :: (mid ++ B :: post))) n = some B := by
  rw [byName_getEntry, lastWithName_append]
  have hBpost : lastWithName (B :: post) n = some B := by
    rw [lastWithName, lastWithName_none post n hpost, if_pos hB]
  have hmid : lastWithName (mid ++ B :: post) n = some B := by
    rw [lastWithName_append, hBpost]
    rfl
  rw [show lastWithName (A :: (mid ++ B :: post)) n = some B by rw [lastWithName, hmid]]
  rfl

/-- Witness for C5: two regions both named "X"; lookup returns the second. -/
theorem C5_last_duplicate_wins_witness :
    getEntry (byName ([] ++ (⟨some (PropValue.str "X"), ((0, 0), (1, 1))⟩ : ProvinceFeature) ::
      ([] ++ (⟨some (PropValue.str "X"), ((2, 2), (3, 3))⟩ : ProvinceFeature) :: []))) "X" =
      some ⟨some (PropValue.str "X"), ((2, 2), (3, 3))⟩ :=
  C5_last_duplicate_wins [] [] [] ⟨some (PropValue.str "X"), ((0, 0), (1, 1))⟩
    ⟨some (PropValue.str "X"), ((2, 2), (3, 3))⟩ "X" rfl rfl (by simp)

/-- The highlighted fill colour (src line 106). -/
def highlightFill : String := "#93c5fd"

/-- The default fill colour (src lines 65 and 106). -/
def defaultFill : String := "#e5e7eb"

/-- The observable scene state: the fill of each province (aligned with the
feature list the selection was joined on) and the camera transform attribute of
the `scene` group (`none` until first set). -/
structure SceneState where
  fills : List String
  camera : Option CameraTransform
deriving DecidableEq

/-- The scene right after the initial render: every province has the default
fill (src line 65) and the scene group carries no transform yet. -/
def initState (features : List ProvinceFeature) : SceneState :=
  ⟨features.map (fun _ => defaultFill), none⟩

/-- Embeds `highlight` (src lines 104-108): set every province's fill by strict
comparison of its `name` property with the active name — the highlighted colour
on a match, the default colour otherwise. (The source's parameter type admits
`null`, but the program only ever calls `highlight` with a string.) -/
def highlight (features : List ProvinceFeature) (activeName : String) (st : SceneState) :
    SceneState :=
  { st with
    fills := features.map (fun f =>
      if f.name = some (PropValue.str activeName) then highlightFill else defaultFill) }

/-- `transformFor` as the source calls it: at the module viewport constants and
the default padding 0.9, on the feature's screen bounding box. -/
def transformForFeature (f : ProvinceFeature) : CameraTransform :=
  transformFor width height f.bounds.1.1 f.bounds.1.2 f.bounds.2.1 f.bounds.2.2 (9/10)

/-- A started camera transition: the target transform and the configured
duration in milliseconds. A duration of 0 is an instantaneous jump. -/
structure CameraTransition where
  target : CameraTransform
  duration : ℚ
deriving DecidableEq

/-- Embeds `focus` (src lines 167-181): look the name up in the index; if absent,
return immediately (state untouched, no transition started); otherwise highlight
the name, compute the target transform, and start a transition of the scene
transform with the given duration. -/
def focus (features : List ProvinceFeature) (name : String) (durationMs : ℚ)
    (st : SceneState) : SceneState × Option CameraTransition :=
  match getEntry (byName features) name with
  | none => (st, none)
  | some f =>
      let t := transformForFeature f
      ({ highlight features name st with camera := some t }, some ⟨t, durationMs⟩)

/-- A tour step as §4.5 of the spec defines it. -/
structure TourStep where
  targetName : String
  durationMs : ℚ
  drawLinkFromPrevious : Bool
deriving DecidableEq

/-- Modelled from the spec: the general tour sequencer of §4.5 (`run(steps)`) is
not in src — the source hard-codes a two-step demo tour (lines 185-200) whose
first frame jumps to the first target with no transition (lines 190-192) and
whose later step animates via `focus`. Steps run in order; each step is the
source's `focus`, except that the very first step that resolves is applied with
duration 0 (the spec's first-step special case: the camera jumps instantly to
avoid motion from the default state). Unresolved steps are skipped and the
boolean stays set. Returns the final state and the list of started camera
transitions in order. -/
def runTourFrom (features : List ProvinceFeature) :
    List TourStep → Bool → SceneState → SceneState × List CameraTransition
  | [], _, st => (st, [])
  | s :: rest, first, st =>
      match focus features s.targetName (if first then 0 else s.durationMs) st with
      | (st1, none) => runTourFrom features rest first st1
      | (st1, some tr) =>
          let r := runTourFrom features rest false st1
          (r.1, tr :: r.2)

/-- Modelled from the spec: run a whole tour from the freshly rendered scene. -/
def runTour (features : List ProvinceFeature) (steps : List TourStep) :
    SceneState × List CameraTransition :=
  runTourFrom features steps true (initState features)

/-- The steps of a tour whose target name resolves in the index, each paired
with the feature it resolves to. -/
def resolvedSteps (features : List ProvinceFeature) (steps : List TourStep) :
    List (TourStep × ProvinceFeature) :=
  steps.filterMap (fun s => (getEntry (byName features) s.targetName).map (fun f => (s, f)))

/-- The transition an animated (non-first) resolved step starts. -/
def stepTransition (p : TourStep × ProvinceFeature) : CameraTransition :=
  ⟨transformForFeature p.2, p.1.durationMs⟩

/-- Specification-side description of a tour's camera transitions: the first
resolved step jumps with duration 0 regardless of its configured duration;
every later resolved step animates with its configured duration. -/
def specTrace (features : List ProvinceFeature) (steps : List TourStep) :
    List CameraTransition :=
  match resolvedSteps features steps with
  | [] => []
  | p :: rest => ⟨transformForFeature p.2, 0⟩ :: rest.map stepTransition

lemma runTourFrom_cons_none (features : List ProvinceFeature) (s : TourStep)
    (rest : List TourStep) (b : Bool) (st : SceneState)
    (h : getEntry (byName features) s.targetName = none) :
    runTourFrom features (s :: rest) b st = runTourFrom features rest b st := by
  simp [runTourFrom, focus, h]

lemma runTourFrom_cons_some (features : List ProvinceFeature) (s : TourStep)
    (rest : List TourStep) (b : Bool) (st : SceneState) (f : ProvinceFeature)
    (h : getEntry (byName features) s.targetName = some f) :
    runTourFrom features (s :: rest) b st =
      ((runTourFrom features rest false
          { highlight features s.targetName st with camera := some (transformForFeature f) }).1,
       (⟨transformForFeature f, if b then 0 else s.durationMs⟩ : CameraTransition) ::
         (runTourFrom features rest false
           { highlight features s.targetName st with
             camera := some (transformForFeature f) }).2) := by
  simp [runTourFrom, focus, h]

lemma runTourFrom_filter (features : List ProvinceFeature) (steps : List TourStep) :
    ∀ (b : Bool) (st : SceneState),
      runTourFrom features steps b st =
        runTourFrom features
          (steps.filter (fun s => (getEntry (byName features) s.targetName).isSome)) b st := by
  induction steps with
  | nil => intro b st; rfl
  | cons s rest ih =>
    intro b st
    cases h : getEntry (byName features) s.targetName with
    | none =>
      rw [runTourFrom_cons_none features s rest b st h]
      simp only [List.filter_cons, h, Option.isSome_none, if_neg Bool.false_ne_true]
      exact ih b st
    | some f =>
      have hfil : (s :: rest).filter
            (fun s => (getEntry (byName features) s.targetName).isSome) =
          s :: rest.filter (fun s => (getEntry (byName features) s.targetName).isSome) := by
        simp [List.filter_cons, h]
      rw [hfil, runTourFrom_cons_some features s rest b st f h,
        runTourFrom_cons_some features s _ b st f h, ih]

/-- C6: an unresolvable target name is skipped silently — running any tour gives
exactly the state and transitions of the tour restricted to the steps whose
names resolve in the index, so a tour containing unresolvable names still runs
to completion having focused only the resolvable targets. -/
theorem C6_unresolvable_steps_skipped (features : List ProvinceFeature)
    (steps : List TourStep) :
    runTour features steps =
      runTour features
        (steps.filter (fun s => (getEntry (byName features) s.targetName).isSome)) :=
  runTourFrom_filter features steps true (initState features)

lemma runTourFrom_trace_animated (features : List ProvinceFeature) (steps : List TourStep) :
    ∀ st : SceneState,
      (runTourFrom features steps false st).2 =
        (resolvedSteps features steps).map stepTransition := by
  induction steps with
  | nil => intro st; rfl
  | cons s rest ih =>
    intro st
    cases h : getEntry (byName features) s.targetName with
    | none =>
      rw [runTourFrom_cons_none features s rest false st h]
      simp [resolvedSteps, List.filterMap_cons, h, ih st]
    | some f =>
      rw [runTourFrom_cons_some features s rest false st f h]
      simp [resolvedSteps, List.filterMap_cons, h, stepTransition, ih]

lemma runTourFrom_trace_first (features : List ProvinceFeature) (steps : List TourStep) :
    ∀ st : SceneState,
      (runTourFrom features steps true st).2 = specTrace features steps := by
  induction steps with
  | nil => intro st; rfl
  | cons s rest ih =>
    intro st
    cases h : getEntry (byName features) s.targetName with
    | none =>
      rw [runTourFrom_cons_none features s rest true st h]
      simp only [specTrace, resolvedSteps, List.filterMap_cons, h, Option.map_none']
      rw [ih st]
      simp [specTrace, resolvedSteps]
    | some f =>
      rw [runTourFrom_cons_some features s rest true st f h]
      simp only [specTrace, resolvedSteps, List.filterMap_cons, h, Option.map_some', if_pos rfl]
      rw [runTourFrom_trace_animated features rest]
      rfl

/-- C7: the first step of any tour that resolves applies its target transform
with duration 0 — an instantaneous jump, whatever that step's configured
`durationMs` — and every subsequent resolved step animates with its configured
duration: the transitions of a tour are exactly `specTrace`. -/
theorem C7_first_step_instant (features : List ProvinceFeature) (steps : List TourStep) :
    (runTour features steps).2 = specTrace features steps :=
  runTourFrom_trace_first features steps (initState features)

/-- C8 counterexample: with two regions both named "X", `highlight "X"` puts the
highlighted style on both of them — two regions highlighted, not exactly one. -/
theorem C8_duplicate_highlight_cex :
    ((highlight
        [⟨some (PropValue.str "X"), ((0, 0), (1, 1))⟩,
         ⟨some (PropValue.str "X"), ((2, 2), (3, 3))⟩] "X"
        (initState
          [⟨some (PropValue.str "X"), ((0, 0), (1, 1))⟩,
           ⟨some (PropValue.str "X"), ((2, 2), (3, 3))⟩])).fills.count highlightFill = 2) ∧
    ((highlight
        [⟨some (PropValue.str "X"), ((0, 0), (1, 1))⟩,
         ⟨some (PropValue.str "X"), ((2, 2), (3, 3))⟩] "X"
        (initState
          [⟨some (PropValue.str "X"), ((0, 0), (1, 1))⟩,
           ⟨some (PropValue.str "X"), ((2, 2), (3, 3))⟩])).fills.count highlightFill ≠ 1) := by
  constructor
  · rfl
  · intro h
    simp only [highlight, initState, List.map] at h
    norm_num [List.count_cons, highlightFill] at h

/-- C8 amended: after `highlight activeName`, a region carries the highlighted
fill exactly when its name property equals the active name, and every fill is
either the highlighted or the default colour — so the number of highlighted
regions equals the number of regions bearing the active name (exactly one only
when the collection contains exactly one region with that name). -/
theorem C8_highlight_characterization (features : List ProvinceFeature) (active : String)
    (st : SceneState) :
    ((highlight features active st).fills.count highlightFill =
      (features.filter (fun f => f.name = some (PropValue.str active))).length) ∧
    (∀ c ∈ (highlight features active st).fills, c = highlightFill ∨ c = defaultFill) := by
  constructor
  · simp only [highlight]
    induction features with
    | nil => rfl
    | cons f rest ih =>
      have hne : (defaultFill == highlightFill) = false := by decide
      by_cases hf : f.name = some (PropValue.str active) <;>
        simp [List.count_cons, List.filter_cons, hf, ih, hne]
  · intro c hc
    simp only [highlight, List.mem_map] at hc
    obtain ⟨f, _, hf⟩ := hc
    by_cases h : f.name = some (PropValue.str active)
    · left; rw [← hf, if_pos h]
    · right; rw [← hf, if_neg h]

/-- C10: focusing a name absent from the index is a complete no-op — the state
(fills and camera transform) is returned unchanged and no transition is started,
because the early return precedes both the `highlight` call and the transition. -/
theorem C10_focus_missing_noop (features : List ProvinceFeature) (name : String) (d : ℚ)
    (st : SceneState) (h : getEntry (byName features) name = none) :
    focus features name d st = (st, none) := by
  simp [focus, h]

/-- Witness for C10: focusing "Atlantis" on the empty collection. -/
theorem C10_focus_missing_noop_witness :
    focus [] "Atlantis" 1200 (initState []) = (initState [], none) :=
  C10_focus_missing_noop [] "Atlantis" 1200 (initState []) rfl

/-- The arithmetic of d3-geo's `fitExtent`, which `fitSize([width, height], china)`
at src line 47 delegates to. The library source is not part of this repository;
the computation is reproduced from d3-geo's published implementation: with
extent `[[0,0],[W,H]]` and streamed bounds `[[b0x,b0y],[b1x,b1y]]` it computes
`k = min(W/(b1x-b0x), H/(b1y-b0y))` and sets the projection to
`scale = 150*k`, `translate = [0 + (W - k*(b1x+b0x))/2, 0 + (H - k*(b1y+b0y))/2]`,
with no emptiness check and no error path (nothing in src checks either). -/
def fitExtentTransform (W H : ℚ) (b0x b0y b1x b1y : JSNum) : JSNum × JSNum × JSNum :=
  let k := JSNum.jmin (JSNum.div (.num W) (JSNum.sub b1x b0x))
    (JSNum.div (.num H) (JSNum.sub b1y b0y))
  let x := JSNum.add (.num 0)
    (JSNum.div (JSNum.sub (.num W) (JSNum.mul k (JSNum.add b1x b0x))) (.num 2))
  let y := JSNum.add (.num 0)
    (JSNum.div (JSNum.sub (.num H) (JSNum.mul k (JSNum.add b1y b0y))) (.num 2))
  (JSNum.mul (.num 150) k, x, y)

/-- A projected screen abscissa under a fitted projection: coordinate times the
projection scale plus the translate (the affine form of the fitted Mercator
projection; the same shape applies to the ordinate). -/
def projectX (t : JSNum × JSNum × JSNum) (c : ℚ) : JSNum :=
  JSNum.add (JSNum.mul t.1 (.num c)) t.2.1

/-- For the empty region collection (`china.features ?? []` at src line 32 yields
`[]`), d3's bounds stream receives no points, so the bounds stay at the stream's
initial accumulator `[[+inf,+inf],[-inf,-inf]]` and `fitExtent` computes
`k = min(960/(-inf), 600/(-inf)) = -0`, `scale = 0`, `translate = [NaN, NaN]`. -/
lemma fitExtent_empty_eval :
    fitExtentTransform 960 600 JSNum.posInf JSNum.posInf JSNum.negInf JSNum.negInf =
      (JSNum.num 0, JSNum.nan, JSNum.nan) := by
  simp only [fitExtentTransform]
  norm_num [JSNum.sub, JSNum.add, JSNum.neg, JSNum.div, JSNum.jmin, JSNum.mul]

/-- C3 counterexample: fitting the projection on the empty region collection
does not fail — the code has no emptiness check and defines no error at all —
it succeeds, and the fitted transform has scale 0 and NaN translates, so a
projected screen coordinate is NaN (silently). -/
theorem C3_empty_fit_silent_cex :
    fitExtentTransform 960 600 JSNum.posInf JSNum.posInf JSNum.negInf JSNum.negInf =
      (JSNum.num 0, JSNum.nan, JSNum.nan) ∧
    projectX (fitExtentTransform 960 600 JSNum.posInf JSNum.posInf JSNum.negInf JSNum.negInf)
      116 = JSNum.nan := by
  refine ⟨fitExtent_empty_eval, ?_⟩
  rw [projectX, fitExtent_empty_eval]
  norm_num [JSNum.mul, JSNum.add]

/-- C3 amended: on the empty collection the fit succeeds silently with a NaN
translate, so every projected screen coordinate is NaN — no `EmptyInputError`
(or any error) is surfaced, because none exists anywhere in the code. -/
theorem C3_empty_fit_nan (c : ℚ) :
    projectX (fitExtentTransform 960 600 JSNum.posInf JSNum.posInf JSNum.negInf JSNum.negInf)
      c = JSNum.nan := by
  rw [projectX, fitExtent_empty_eval]
  simp [JSNum.mul, JSNum.add]

end D3Demo
